import Mathlib

/-!
# Verification of the Oracle game-log tracker core

Shallow embedding of the data model and operations of the Oracle
repository (game-log observer: inventory, map runs, sessions, stats,
market tracking, price book), together with theorems settling the
specification claims about them.

Conventions:
* Python `int` is modelled as `Int` (unbounded).
* Python `float` used for prices/currency is modelled as `ℚ`; the
  algebraic identities proved here hold exactly over the rationals.
* Python dicts keyed by `(page, slot)` are modelled as association
  lists; key update removes the old binding and conses the new one, so
  per-key sums agree with the dict semantics.
* Wall-clock instants are modelled as integer milliseconds (or rational
  seconds for the stats service) passed explicitly where the source
  calls `datetime.now()`.
-/

namespace Oracle

/-! ## Inventory model — `Oracle/services/model/inventory_model.py` -/

/-- `InventoryItem`: a single item in an inventory slot. -/
structure InventoryItem where
  item_id : Int
  quantity : Int
  name : Option String := none
  category : Option String := none
deriving Repr, DecidableEq

/-- `Inventory.slots`: dict keyed by `(page, slot)`, modelled as an
association list. -/
def Inventory := List ((Int × Int) × InventoryItem)

instance : DecidableEq Inventory := by unfold Inventory; infer_instance

instance : EmptyCollection Inventory := ⟨([] : List ((Int × Int) × InventoryItem))⟩

/-- `sum(item.quantity for item in self.slots.values() if item.item_id == item_id)`:
total quantity of `item_id` across all slots. -/
def totalItemQty (inv : Inventory) (item_id : Int) : Int :=
  (inv.map (fun e => if e.2.item_id = item_id then e.2.quantity else 0)).sum

/-- Removal of a slot key (`self.slots.pop(key, None)` / overwrite). -/
def slotsWithout (inv : Inventory) (key : Int × Int) : Inventory :=
  inv.filter (fun e => e.1 ≠ key)

/-- `Inventory.change_item`: update one slot and return the delta in
total quantity for this `item_id` across all slots, together with the
updated inventory. -/
def changeItem (inv : Inventory) (page slot item_id quantity : Int)
    (name category : Option String) : Inventory × Int :=
  let key := (page, slot)
  let previous_total := totalItemQty inv item_id
  let inv' : Inventory :=
    if quantity ≤ 0 then slotsWithout inv key
    else (key, ⟨item_id, quantity, name, category⟩) :: slotsWithout inv key
  let new_total := totalItemQty inv' item_id
  (inv', new_total - previous_total)

/-- The distinct `item_id`s appearing in an inventory (the key set of the
`item_id → total_quantity` dict built by `compare_with`). -/
def invItemIds (inv : Inventory) : List Int :=
  (inv.map (fun e => e.2.item_id)).dedup

/-- `InventorySnapshot.compare_with`: `item_id → delta` over the union of
the two key sets, zero deltas omitted.  `compareWith new old` is
`new.compare_with(old)` (deltas are new minus old). -/
def compareWith (newInv oldInv : Inventory) : List (Int × Int) :=
  ((invItemIds oldInv ++ invItemIds newInv).dedup).filterMap (fun id =>
    let delta := totalItemQty newInv id - totalItemQty oldInv id
    if delta ≠ 0 then some (id, delta) else none)

/-! ## Enter-level FSM — `Oracle/parsing/parsers/enter_level.py` -/

/-- FSM states for parsing the 3-line EnterLevel sequence. -/
inductive ParseState
  | IDLE
  | GOT_ENTER
  | GOT_LEVEL_INFO
deriving Repr, DecidableEq

/-- Abstraction of one input line: which of the parser's regexes match it
and the numeric captures (timestamps in integer milliseconds).
`matchInfo` covers both `LEVEL_INFO_RE` and `LEVEL_INFO_ALT_RE` and
carries `(timestamp, level_uid, level_type, level_id)`. -/
structure LogLine where
  matchEnter : Option Int
  matchInfo : Option (Int × Int × Int × Int)
  matchPath : Option Int
deriving Repr, DecidableEq

/-- A line matching none of the three patterns. -/
def junkLine : LogLine := ⟨none, none, none⟩

/-- A line matching only `ENTER_LEVEL_RE`, with captured timestamp. -/
def enterLine (ts : Int) : LogLine := ⟨some ts, none, none⟩

/-- A line matching only the `LEVEL_INFO` patterns. -/
def infoLine (ts uid ltype lid : Int) : LogLine := ⟨none, some (ts, uid, ltype, lid), none⟩

/-- A line matching only `LEVEL_PATH_RE`. -/
def pathLine (ts : Int) : LogLine := ⟨none, none, some ts⟩

/-- `EnterLevelEvent` as built by the parser (fields taken from the FSM's
accumulated registers, which are `Optional` in the source). -/
structure EnterLevelEvent where
  timestamp : Option Int
  level_id : Option Int
  level_uid : Option Int
  level_type : Option Int
deriving Repr, DecidableEq

/-- The mutable state of `EnterLevelParser`. -/
structure ELFsm where
  state : ParseState
  timestamp : Option Int
  level_uid : Option Int
  level_type : Option Int
  level_id : Option Int
  non_idle_counter : Nat
  state_entered_at : Option Int
deriving Repr, DecidableEq

/-- `_reset_fsm` target / `__init__` state: IDLE with all data cleared. -/
def initFsm : ELFsm :=
  { state := ParseState.IDLE
    timestamp := none
    level_uid := none
    level_type := none
    level_id := none
    non_idle_counter := 0
    state_entered_at := none }

/-- `_state_timeout_seconds = 2.0`, in milliseconds. -/
def stateTimeoutMs : Int := 2000

/-- The 3-state machine at the bottom of `feed_line` (after the timeout
and counter guards). -/
def stepMachine (now : Int) (p : ELFsm) (ln : LogLine) : ELFsm × Option EnterLevelEvent :=
  match p.state with
  | ParseState.IDLE =>
    match ln.matchEnter with
    | some ts =>
      ({ p with timestamp := some ts
                state := ParseState.GOT_ENTER
                non_idle_counter := 0
                state_entered_at := some now }, none)
    | none => (p, none)
  | ParseState.GOT_ENTER =>
    match ln.matchInfo with
    | some (_, uid, ltype, lid) =>
      ({ p with level_uid := some uid
                level_type := some ltype
                level_id := some lid
                state := ParseState.GOT_LEVEL_INFO }, none)
    | none => (p, none)
  | ParseState.GOT_LEVEL_INFO =>
    match ln.matchPath with
    | some _ =>
      (initFsm, some ⟨p.timestamp, p.level_id, p.level_uid, p.level_type⟩)
    | none => (p, none)

/-- The timeout guard at the top of `feed_line`: reset when stuck in a
non-IDLE state for more than the timeout. -/
def timeoutGuard (now : Int) (p : ELFsm) : ELFsm :=
  match p.state_entered_at with
  | some t =>
    if p.state ≠ ParseState.IDLE ∧ now - t > stateTimeoutMs then initFsm else p
  | none => p

/-- The non-IDLE line counter with its force-reset at 6, followed by the
state machine. -/
def counterGuardStep (now : Int) (q : ELFsm) (ln : LogLine) : ELFsm × Option EnterLevelEvent :=
  if q.state ≠ ParseState.IDLE then
    let q' := { q with non_idle_counter := q.non_idle_counter + 1 }
    if q'.non_idle_counter ≥ 6 then (initFsm, none)
    else stepMachine now q' ln
  else stepMachine now q ln

/-- `EnterLevelParser.feed_line`: timeout guard, then the non-IDLE line
counter with its force-reset at 6, then the state machine. -/
def feedLine (now : Int) (p : ELFsm) (ln : LogLine) : ELFsm × Option EnterLevelEvent :=
  counterGuardStep now (timeoutGuard now p) ln

/-- Feed a stream of `(now, line)` pairs, collecting the emitted events. -/
def feedLines (p : ELFsm) : List (Int × LogLine) → ELFsm × List EnterLevelEvent
  | [] => (p, [])
  | (now, ln) :: rest =>
    let r := feedLine now p ln
    let rr := feedLines r.1 rest
    (rr.1, r.2.toList ++ rr.2)

/-! ## Map service enter-level decision — `Oracle/services/map_service.py` -/

/-- Outcome of `MapService.handle_event` on an `ENTER_LEVEL` event. -/
inductive MapAction
  | startMap
  | reenter
  | endMap
  | ignore
deriving Repr, DecidableEq

/-- Python truthiness test `not self.current_map_id`
(`current_map_id : int | None` starts at `0`): true for `None` and `0`. -/
def mapIdFalsy : Option Int → Bool
  | none => true
  | some v => v == 0

/-- The `ENTER_LEVEL` branch of `MapService.handle_event`:
`if not current_map_id or (current_map_id < 1000 and level_id >= 1000)`
start a map; `elif current_map_id == level_id` re-enter; `elif
level_id < 1000` end the map; else nothing. -/
def handleEnterLevel (current_map_id : Option Int) (level_id : Int) : MapAction :=
  if mapIdFalsy current_map_id then MapAction.startMap
  else if current_map_id.getD 0 < 1000 ∧ level_id ≥ 1000 then MapAction.startMap
  else if current_map_id = some level_id then MapAction.reenter
  else if level_id < 1000 then MapAction.endMap
  else MapAction.ignore

/-! ## Map-completion currency accounting — `StatsService.on_map_started`,
`StatsService.on_map_finished`, `MapService.on_map_stats`,
`MapService._save_item_changes` -/

/-- A `MapCompletionItem` row as created by `MapService._save_item_changes`. -/
structure MapCompletionItemRow where
  item_id : Int
  delta : Int
  total_price : ℚ
  consumed : Bool
deriving Repr, DecidableEq

/-- `StatsService.on_map_started` entry-cost computation:
`total += price * item.quantity` over the consumed items
(`(item_id, quantity)` pairs, quantities positive). -/
def entryCost (price : Int → ℚ) (consumedItems : List (Int × Int)) : ℚ :=
  (consumedItems.map (fun e => price e.1 * e.2)).sum

/-- `StatsService.on_map_finished`:
`currency_drops = sum(price(item_id) * delta for ... in inventory_changes)`. -/
def currencyDrops (price : Int → ℚ) (changes : List (Int × Int)) : ℚ :=
  (changes.map (fun e => price e.1 * e.2)).sum

/-- `currency_gained = currency_drops - current_map_entry_cost`. -/
def currencyGained (price : Int → ℚ) (changes consumedItems : List (Int × Int)) : ℚ :=
  currencyDrops price changes - entryCost price consumedItems

/-- `MapService._save_item_changes`: one `MapCompletionItem` row per entry,
with `total_price = price * delta` and the given `consumed` flag. -/
def saveItemChanges (price : Int → ℚ) (changes : List (Int × Int))
    (consumed : Bool) : List MapCompletionItemRow :=
  changes.map (fun e => ⟨e.1, e.2, price e.1 * e.2, consumed⟩)

/-- `MapService.on_map_stats` row creation: the gained/lost rows from the
event's item changes, then (when any) the consumed rows built from
`consumed_dict = {item.item_id: -item.quantity}`. -/
def mapCompletionRows (price : Int → ℚ) (changes consumedItems : List (Int × Int)) :
    List MapCompletionItemRow :=
  saveItemChanges price changes false ++
    (if consumedItems ≠ [] then
      saveItemChanges price (consumedItems.map (fun e => (e.1, -e.2))) true
    else [])

/-- Sum of `total_price` over rows with the given `consumed` flag. -/
def sumTotalPrice (rows : List MapCompletionItemRow) (consumed : Bool) : ℚ :=
  ((rows.filter (fun r => r.consumed == consumed)).map (fun r => r.total_price)).sum

/-! ## Stats snapshot processing — `Oracle/services/stats_service.py` -/

/-- Default-0 lookup in a `defaultdict(float)` modelled as an association
list. -/
def qlookup (m : List (Int × ℚ)) (id : Int) : ℚ :=
  ((m.find? (fun e => e.1 == id)).map (fun e => e.2)).getD 0

/-- Keyed insert/overwrite in an association list. -/
def qinsert (m : List (Int × ℚ)) (id : Int) (v : ℚ) : List (Int × ℚ) :=
  (id, v) :: m.filter (fun e => e.1 ≠ id)

/-- `self._items_total[item_id] += delta`. -/
def addDelta (m : List (Int × ℚ)) (id : Int) (d : ℚ) : List (Int × ℚ) :=
  qinsert m id (qlookup m id + d)

/-- `"FightCtrl" in self._current_view`. -/
def viewIsFighting (view : String) : Bool :=
  decide ("FightCtrl".data <:+: view.data)

/-- The `StatsService` counters and baseline bookkeeping touched by
`on_inventory_update` and `_process_snapshot` (times in rational
seconds). -/
structure StatsState where
  last_snapshot : Option Inventory
  baseline_set : Bool
  first_map_after_join : Bool
  items_total : List (Int × ℚ)
  items_per_hour : List (Int × ℚ)
  currency_total : ℚ
  currency_per_map : ℚ
  currency_per_hour : ℚ
  currency_current_raw : ℚ
  current_view : String
  session_start : ℚ
  total_maps : Nat

/-- `StatsService.on_inventory_update`: install the DB-loaded inventory as
the comparison baseline and mark the baseline as set. -/
def onInventoryUpdate (s : StatsState) (inv : Inventory) : StatsState :=
  { s with last_snapshot := some inv
           baseline_set := true
           first_map_after_join := true }

/-- `StatsService._process_snapshot` (the `_publish_stats` side effect is
not part of the state). -/
def processSnapshot (now : ℚ) (price : Int → ℚ) (s : StatsState)
    (snap : Inventory) : StatsState :=
  match s.last_snapshot with
  | none => { s with last_snapshot := some snap }
  | some last =>
    if !s.baseline_set then
      { s with baseline_set := true, last_snapshot := some snap }
    else if !viewIsFighting s.current_view then
      { s with last_snapshot := some snap }
    else
      let item_changes := compareWith snap last
      if item_changes = [] then { s with last_snapshot := some snap }
      else
        let items_total :=
          item_changes.foldl (fun m e => addDelta m e.1 (e.2 : ℚ)) s.items_total
        let currency_gained :=
          (item_changes.map (fun e => price e.1 * (e.2 : ℚ))).sum
        let currency_total := s.currency_total + currency_gained
        let currency_current_raw := s.currency_current_raw + currency_gained
        let hours_elapsed := (now - s.session_start) / 3600
        let items_per_hour :=
          if hours_elapsed > 0 then
            items_total.foldl (fun m e => qinsert m e.1 (e.2 / hours_elapsed))
              s.items_per_hour
          else s.items_per_hour
        let currency_per_hour :=
          if hours_elapsed > 0 then currency_total / hours_elapsed
          else s.currency_per_hour
        let currency_per_map :=
          if 0 < s.total_maps then currency_total / (s.total_maps : ℚ)
          else s.currency_per_map
        { s with last_snapshot := some snap
                 items_total := items_total
                 items_per_hour := items_per_hour
                 currency_total := currency_total
                 currency_current_raw := currency_current_raw
                 currency_per_hour := currency_per_hour
                 currency_per_map := currency_per_map }

/-! ## Market tracking — `Oracle/services/market_service.py` -/

/-- The fields of an `ItemChangeEvent` used by `MarketService.on_item_change`. -/
structure ItemChangeEv where
  item_id : Int
  page : Int
  slot : Int
  amount : Int
  name : Option String
  category : Option String
deriving Repr, DecidableEq

/-- A `MarketTransaction` row as passed to `_save_transaction`. -/
structure MarketTx where
  item_id : Int
  quantity : Int
  action : String
deriving Repr, DecidableEq

/-- The `MarketService` batching state. -/
structure MarketState where
  market_open : Bool
  inventory : Option Inventory
  total_quantity : Int
  last_event : Option ItemChangeEv
deriving DecidableEq

/-- `MarketService.on_item_change`: per-slot update through the live
inventory, then batch/flush logic on the cross-slot delta.  Returns the
new state and the transactions saved by this call. -/
def onItemChange (s : MarketState) (ev : ItemChangeEv) : MarketState × List MarketTx :=
  if !s.market_open then (s, [])
  else
    match s.inventory with
    | none => (s, [])
    | some inv =>
      let r := changeItem inv ev.page ev.slot ev.item_id ev.amount ev.name ev.category
      let inv' := r.1
      let quantity_delta := r.2
      if quantity_delta = 0 then ({ s with inventory := some inv' }, [])
      else
        match s.last_event with
        | some le =>
          if le.item_id = ev.item_id then
            ({ s with inventory := some inv'
                      total_quantity := s.total_quantity + quantity_delta
                      last_event := some ev }, [])
          else
            let txs :=
              if s.total_quantity ≠ 0 then
                [⟨le.item_id, |s.total_quantity|,
                  if s.total_quantity > 0 then "gained" else "lost"⟩]
              else ([] : List MarketTx)
            ({ s with inventory := some inv'
                      total_quantity := quantity_delta
                      last_event := some ev }, txs)
        | none =>
          ({ s with inventory := some inv'
                    total_quantity := quantity_delta
                    last_event := some ev }, [])

/-- `MarketService._handle_close`: flush the pending batch (note: with the
raw signed `total_quantity`, unlike the different-item flush) and clear
the batching state. -/
def handleClose (s : MarketState) : MarketState × Option MarketTx :=
  let tx : Option MarketTx :=
    if s.total_quantity ≠ 0 then
      s.last_event.map (fun le =>
        ⟨le.item_id, s.total_quantity,
          if s.total_quantity > 0 then "gained" else "lost"⟩)
    else none
  ({ s with inventory := none, total_quantity := 0, last_event := none }, tx)

/-! ## Session lifecycle — `Oracle/services/session_service.py` -/

/-- A `Session` row (the fields relevant to the activity invariant). -/
structure SessionRow where
  id : Nat
  player : String
  is_active : Bool
deriving Repr, DecidableEq

/-- The session table plus the id sequence. -/
structure SessionDB where
  rows : List SessionRow
  nextId : Nat

/-- `SessionService` state: the database plus `_current_session`
(by row id). -/
structure SessState where
  db : SessionDB
  current : Option Nat

/-- Python truthiness of an optional player name (`not player_name`). -/
def playerFalsy : Option String → Bool
  | none => true
  | some s => s.isEmpty

/-- `SessionService.close_session`: mark the current row inactive and
forget it (no-op without a current session). -/
def closeSession (s : SessState) : SessState :=
  match s.current with
  | none => s
  | some i =>
    { db := { s.db with rows := s.db.rows.map (fun r =>
        if r.id = i then { r with is_active := false } else r) }
      current := none }

/-- `SessionService.start_session`: abort on a falsy name; otherwise close
any current session and create a fresh `is_active=true` row. -/
def startSession (s : SessState) (player : Option String) : SessState :=
  if playerFalsy player then s
  else
    let s := closeSession s
    { db := { rows := s.db.rows ++ [⟨s.db.nextId, player.getD "", true⟩]
              nextId := s.db.nextId + 1 }
      current := some s.db.nextId }

/-- `SessionService.on_player_join` (restore part): adopt a stored active
session for that player when it differs from the loaded one. -/
def playerJoinRestore (s : SessState) (player : String) : SessState :=
  match s.db.rows.find? (fun r => r.is_active && r.player == player) with
  | some r => if s.current ≠ some r.id then { s with current := some r.id } else s
  | none => s

/-- Process restart followed by `SessionService.post_startup`: the new
process starts with no current session and adopts the first
`is_active=true` row, if any. -/
def restartRestore (s : SessState) : SessState :=
  { s with current := (s.db.rows.find? (fun r => r.is_active)).map (fun r => r.id) }

/-- The session operations named by the invariant claim. -/
inductive SessionOp
  | start (player : Option String)
  | close
  | next (player : Option String)
  | playerChanged (newPlayer : String)
  | playerJoin (player : String)
  | restart

/-- One step of the session lifecycle. -/
def applySessionOp (s : SessState) : SessionOp → SessState
  | SessionOp.start p => startSession s p
  | SessionOp.close => closeSession s
  | SessionOp.next p => startSession (closeSession s) p
  | SessionOp.playerChanged p => startSession (closeSession s) (some p)
  | SessionOp.playerJoin p => playerJoinRestore s p
  | SessionOp.restart => restartRestore s

/-- Run a trace of operations from the initial state (empty table). -/
def runSessionOps (ops : List SessionOp) : SessState :=
  ops.foldl applySessionOp ⟨⟨[], 0⟩, none⟩

/-! ## Price book local refresh — `Oracle/market/price_db.py` -/

/-- `PriceSource` values. -/
inductive PriceSource
  | LOCAL
  | REMOTE
deriving Repr, DecidableEq

/-- A `PriceDataBaseRevision` row. -/
structure PriceRevisionRow where
  timestamp : Int
  source : PriceSource
  item_count : Nat
deriving Repr, DecidableEq

/-- An `Item` row (the fields touched by the price refresh). -/
structure ItemRow where
  item_id : Int
  name : Option String
  category : Option String
  price : ℚ
deriving Repr, DecidableEq

/-- The `PriceDB` cache together with the stored tables it reads and
writes. -/
structure PriceState where
  cache : List (Int × ℚ)
  loaded : Bool
  items : List ItemRow
  revisions : List PriceRevisionRow

/-- Timestamp of the latest `LOCAL` revision
(`filter(source=LOCAL).order_by('-timestamp').first()`). -/
def latestLocalRevision (revs : List PriceRevisionRow) : Option Int :=
  ((revs.filter (fun r => r.source == PriceSource.LOCAL)).map
    (fun r => r.timestamp)).max?

/-- Python truthiness of an optional string (`if name:`). -/
def truthyStr : Option String → Bool
  | none => false
  | some s => !s.isEmpty

/-- Keyed overwrite in the price cache (`self._cache[item_id] = price`). -/
def cacheInsert (c : List (Int × ℚ)) (id : Int) (v : ℚ) : List (Int × ℚ) :=
  (id, v) :: c.filter (fun e => e.1 ≠ id)

/-- Cache lookup (`self._cache.get(item_id)`). -/
def cacheGet (c : List (Int × ℚ)) (id : Int) : Option ℚ :=
  (c.find? (fun e => e.1 == id)).map (fun e => e.2)

/-- The per-entry `Item` upsert inside `_load_local_prices`: update price
(and name/category only when the reference lookup yields truthy values)
on an existing row, otherwise create the row with the lookup's name and
category. -/
def upsertItem (lookup : Int → Option String × Option String)
    (items : List ItemRow) (id : Int) (price : ℚ) : List ItemRow :=
  let name := (lookup id).1
  let category := (lookup id).2
  match items.find? (fun r => r.item_id == id) with
  | some _ =>
    items.map (fun r =>
      if r.item_id == id then
        { r with price := price
                 name := if truthyStr name then name else r.name
                 category := if truthyStr category then category else r.category }
      else r)
  | none => items ++ [⟨id, name, category, price⟩]

/-- `_load_prices_from_db`: hydrate the cache from the `Item` table
(rows with positive price) and mark the DB as loaded. -/
def loadPricesFromDb (s : PriceState) : PriceState :=
  { s with
      cache := s.items.foldl (fun c r =>
        if r.price > 0 then cacheInsert c r.item_id r.price else c) s.cache
      loaded := true }

/-- The parse-the-file branch of `_load_local_prices`: clear the cache,
then per entry cache the price and upsert the `Item` row. -/
def loadFromFile (lookup : Int → Option String × Option String)
    (fileData : List (Int × ℚ)) (s : PriceState) : PriceState :=
  let s := { s with cache := [] }
  let s := fileData.foldl (fun st e =>
    { st with cache := cacheInsert st.cache e.1 e.2
              items := upsertItem lookup st.items e.1 e.2 }) s
  { s with loaded := true }

/-- `PriceDB._load_local_prices` as a function of the file system facts
(`fileExists`, `fileMtime`) and the parsed JSON content (`fileData`).
Returns the success flag and the new state. -/
def loadLocalPrices (lookup : Int → Option String × Option String)
    (fileExists : Bool) (fileMtime : Int) (fileData : List (Int × ℚ))
    (s : PriceState) : Bool × PriceState :=
  if !fileExists then (false, s)
  else
    match latestLocalRevision s.revisions with
    | some t =>
      if fileMtime ≤ t then (false, loadPricesFromDb s)
      else (true, loadFromFile lookup fileData s)
    | none => (true, loadFromFile lookup fileData s)

/-- The local-fallback tail of `PriceDB.refresh_pricelist`:
`success = _load_local_prices(); if success: _save_revision(LOCAL)`. -/
def refreshLocalFallback (now : Int) (lookup : Int → Option String × Option String)
    (fileExists : Bool) (fileMtime : Int) (fileData : List (Int × ℚ))
    (s : PriceState) : Bool × PriceState :=
  let r := loadLocalPrices lookup fileExists fileMtime fileData s
  if r.1 then
    (true, { r.2 with revisions :=
      r.2.revisions ++ [⟨now, PriceSource.LOCAL, r.2.cache.length⟩] })
  else r

/-! ## Concrete instances used by witnesses and counterexamples -/

/-- Empty inventory. -/
def invEmpty : Inventory := ([] : List ((Int × Int) × InventoryItem))

/-- One slot holding 5 of item 7. -/
def invSeven : Inventory := [((1, 1), ⟨7, 5, none, none⟩)]

/-- One slot holding 5 of item 1. -/
def invOne : Inventory := [((1, 1), ⟨1, 5, none, none⟩)]

/-- One slot holding 5 of item 42. -/
def invMarket : Inventory := [((1, 1), ⟨42, 5, none, none⟩)]

/-- Constant price of 1 for every item. -/
def priceOne : Int → ℚ := fun _ => 1

/-- A stats state in a fighting view with all counters zero. -/
def statsS0 : StatsState :=
  { last_snapshot := none
    baseline_set := false
    first_map_after_join := false
    items_total := []
    items_per_hour := []
    currency_total := 0
    currency_per_map := 0
    currency_per_hour := 0
    currency_current_raw := 0
    current_view := "GameUI_FightCtrl"
    session_start := 0
    total_maps := 1 }

/-- Market open over `invMarket`, nothing pending. -/
def marketS0 : MarketState :=
  { market_open := true
    inventory := some invMarket
    total_quantity := 0
    last_event := none }

/-- An item-change deleting the stack of item 42 (a `Delete` carries
amount 0). -/
def evDelete42 : ItemChangeEv := ⟨42, 1, 1, 0, none, none⟩

/-- An item-change setting slot (1,1) to 9 of item 42. -/
def evSet42 : ItemChangeEv := ⟨42, 1, 1, 9, none, none⟩

/-- A pending-batch marker event for item 99. -/
def evLast99 : ItemChangeEv := ⟨99, 2, 3, 4, none, none⟩

/-- Market open with a positive pending batch of 3 for item 99. -/
def marketS99 : MarketState :=
  { market_open := true
    inventory := some invMarket
    total_quantity := 3
    last_event := some evLast99 }

/-- Market open with a pending batch of 3 for item 42. -/
def marketS42 : MarketState :=
  { market_open := true
    inventory := some invMarket
    total_quantity := 3
    last_event := some ⟨42, 1, 1, 5, none, none⟩ }

/-! ## Shared helper lemmas -/

/-- If the two inventories agree on every per-item total, `compare_with`
returns the empty diff. -/
theorem compareWith_eq_nil_of_totals_eq (a b : Inventory)
    (h : ∀ id, totalItemQty a id = totalItemQty b id) :
    compareWith a b = [] := by
  unfold compareWith
  rw [List.filterMap_eq_nil_iff]
  intro id _
  simp [h id]

/-! ## C1 — `Inventory.change_item` returns the cross-slot total delta -/

/-- C1.  For every inventory and every single-slot update via
`change_item`, the returned integer equals the total quantity of that
`item_id` across all slots after the update minus that total before the
update; consequently two updates on the same `item_id` that leave the
item's overall total unchanged return deltas that sum to 0. -/
theorem change_item_cross_slot_delta
    (inv : Inventory) (page slot item_id quantity : Int)
    (name category : Option String)
    (page₂ slot₂ quantity₂ : Int) (name₂ category₂ : Option String) :
    ((changeItem inv page slot item_id quantity name category).2 =
      totalItemQty (changeItem inv page slot item_id quantity name category).1 item_id
        - totalItemQty inv item_id)
    ∧ (totalItemQty
        (changeItem (changeItem inv page slot item_id quantity name category).1
          page₂ slot₂ item_id quantity₂ name₂ category₂).1 item_id
        = totalItemQty inv item_id →
      (changeItem inv page slot item_id quantity name category).2
        + (changeItem (changeItem inv page slot item_id quantity name category).1
            page₂ slot₂ item_id quantity₂ name₂ category₂).2 = 0) := by
  constructor
  · rfl
  · intro h
    have h1 : (changeItem inv page slot item_id quantity name category).2 =
        totalItemQty (changeItem inv page slot item_id quantity name category).1 item_id
          - totalItemQty inv item_id := rfl
    have h2 : (changeItem (changeItem inv page slot item_id quantity name category).1
        page₂ slot₂ item_id quantity₂ name₂ category₂).2 =
        totalItemQty (changeItem (changeItem inv page slot item_id quantity name category).1
          page₂ slot₂ item_id quantity₂ name₂ category₂).1 item_id
          - totalItemQty (changeItem inv page slot item_id quantity name category).1 item_id := rfl
    omega

/-- C1 witness: deleting the stack of 5 of item 7 from slot (1,1) and
re-creating it in slot (1,2) is total-preserving, and the two deltas
(−5 and +5) sum to 0. -/
theorem change_item_cross_slot_delta_witness :
    (changeItem invSeven 1 1 7 0 none none).2
      + (changeItem (changeItem invSeven 1 1 7 0 none none).1 1 2 7 5 none none).2 = 0 :=
  (change_item_cross_slot_delta invSeven 1 1 7 0 none none 1 2 5 none none).2 (by decide)

/-! ## C10 — `InventorySnapshot.compare_with` omits zero deltas -/

/-- C10.  Every delta in the diff returned by `compare_with` is non-zero,
and two snapshots with equal per-item totals across slots produce the
empty diff. -/
theorem compare_with_no_zero_deltas (a b : Inventory) :
    (∀ p ∈ compareWith a b, p.2 ≠ 0)
    ∧ ((∀ id, totalItemQty a id = totalItemQty b id) → compareWith a b = []) := by
  constructor
  · intro p hp
    unfold compareWith at hp
    rcases List.mem_filterMap.mp hp with ⟨id, _, hid⟩
    by_cases hz : totalItemQty a id - totalItemQty b id ≠ 0
    · rw [if_pos hz] at hid
      have hp2 := Option.some.inj hid
      subst hp2
      simpa using hz
    · rw [if_neg hz] at hid
      exact absurd hid (by simp)
  · exact compareWith_eq_nil_of_totals_eq a b

/-- C10 witness: a concrete non-zero delta in a concrete diff, and the
self-comparison of a concrete snapshot is empty. -/
theorem compare_with_no_zero_deltas_witness :
    (((1 : Int), (5 : Int)).2 ≠ 0) ∧ compareWith invOne invOne = [] :=
  ⟨(compare_with_no_zero_deltas invOne invEmpty).1 (1, 5) (by decide),
   (compare_with_no_zero_deltas invOne invOne).2 (fun _ => rfl)⟩

/-! ## C3 — map start decision on `ENTER_LEVEL` with empty `map_id` -/

/-- C3 counterexample: with an empty `current_map_id`, an enter-level
event with `level_id = 100 < 1000` (a hub entry) does start a map,
contradicting the claim that a map starts only when `level_id ≥ 1000`. -/
theorem handle_enter_level_hub_starts_counterexample :
    handleEnterLevel none 100 = MapAction.startMap ∧ (100 : Int) < 1000 := by
  decide

/-- C3 amended.  When `current_map_id` is empty (Python-falsy: `None` or
`0`), `handle_event` on an enter-level event starts a map regardless of
the incoming `level_id`. -/
theorem handle_enter_level_empty_always_starts
    (cur : Option Int) (lid : Int) (h : mapIdFalsy cur = true) :
    handleEnterLevel cur lid = MapAction.startMap := by
  unfold handleEnterLevel
  rw [h]
  rfl

/-- C3 witness: the amended rule at the initial state (`map_id = 0`) and a
hub id. -/
theorem handle_enter_level_empty_always_starts_witness :
    handleEnterLevel (some 0) 5 = MapAction.startMap :=
  handle_enter_level_empty_always_starts (some 0) 5 (by decide)

/-! ## C4 — map-run currency vs stored `MapCompletionItem` rows -/

/-- Splitting `sumTotalPrice` over an append of row lists. -/
theorem sumTotalPrice_append (l₁ l₂ : List MapCompletionItemRow) (b : Bool) :
    sumTotalPrice (l₁ ++ l₂) b = sumTotalPrice l₁ b + sumTotalPrice l₂ b := by
  simp [sumTotalPrice, List.filter_append]

/-- Rows created with a `consumed` flag sum, under that flag, to the
price-weighted sum of their deltas. -/
theorem sumTotalPrice_save_same (price : Int → ℚ) (l : List (Int × Int)) (b : Bool) :
    sumTotalPrice (saveItemChanges price l b) b
      = (l.map (fun e => price e.1 * (e.2 : ℚ))).sum := by
  unfold sumTotalPrice saveItemChanges
  rw [List.filter_map, List.map_map]
  simp [Function.comp_def]

/-- Rows created with a `consumed` flag contribute nothing under the
opposite flag. -/
theorem sumTotalPrice_save_other (price : Int → ℚ) (l : List (Int × Int))
    (b b' : Bool) (h : b ≠ b') :
    sumTotalPrice (saveItemChanges price l b) b' = 0 := by
  unfold sumTotalPrice saveItemChanges
  rw [List.filter_map]
  have : ((fun r : MapCompletionItemRow => r.consumed == b') ∘
      fun e : Int × Int => (⟨e.1, e.2, price e.1 * (e.2 : ℚ), b⟩ : MapCompletionItemRow))
      = fun _ => false := by
    funext e
    simpa using h
  rw [this]
  simp

/-- Negating the deltas negates the price-weighted sum. -/
theorem sum_map_neg_mul (price : Int → ℚ) (l : List (Int × Int)) :
    ((l.map (fun e => (e.1, -e.2))).map (fun e => price e.1 * (e.2 : ℚ))).sum
      = -((l.map (fun e => price e.1 * (e.2 : ℚ))).sum) := by
  induction l with
  | nil => simp
  | cons x xs ih =>
    simp only [List.map_cons, List.sum_cons, ih]
    push_cast
    ring

/-- C4 counterexample: a run with no drops and one consumed entry item
(price 1, quantity 1) has `currency_gained = -1`, while the claimed
formula `Σ total_price (consumed=false) - Σ total_price (consumed=true)`
gives `0 - (-1) = 1`; the difference is 2, far above the 1e-6
tolerance.  (The stored consumed rows already carry negative
`total_price`.) -/
theorem map_currency_consumed_sign_counterexample :
    ¬ (|currencyGained priceOne [] [(9000, 1)]
        - (sumTotalPrice (mapCompletionRows priceOne [] [(9000, 1)]) false
           - sumTotalPrice (mapCompletionRows priceOne [] [(9000, 1)]) true)|
       ≤ 1 / 1000000) := by
  norm_num [currencyGained, currencyDrops, entryCost, priceOne, sumTotalPrice,
    mapCompletionRows, saveItemChanges, abs]

/-- C4 amended.  For every finished map run (per-item prices constant for
the run), the stored `currency_gained` equals the sum of
`MapCompletionItem.total_price` over the run's `consumed=false` rows
**plus** the sum over its `consumed=true` rows (whose `total_price` is
already negative), exactly — not minus, as the consumed rows carry the
entry cost with a negative sign. -/
theorem map_currency_row_sum (price : Int → ℚ)
    (changes consumedItems : List (Int × Int)) :
    currencyGained price changes consumedItems =
      sumTotalPrice (mapCompletionRows price changes consumedItems) false
        + sumTotalPrice (mapCompletionRows price changes consumedItems) true := by
  unfold mapCompletionRows
  by_cases hc : consumedItems = []
  · subst hc
    simp [sumTotalPrice_append, sumTotalPrice_save_same,
      sumTotalPrice_save_other price changes false true (by decide),
      currencyGained, currencyDrops, entryCost]
  · rw [if_pos hc]
    rw [sumTotalPrice_append, sumTotalPrice_append]
    rw [sumTotalPrice_save_same, sumTotalPrice_save_same,
      sumTotalPrice_save_other price changes false true (by decide),
      sumTotalPrice_save_other price (consumedItems.map (fun e => (e.1, -e.2)))
        true false (by decide)]
    rw [sum_map_neg_mul]
    unfold currencyGained currencyDrops entryCost
    ring

/-! ## C5 — snapshot handling after `INVENTORY_UPDATE` -/

/-- C5 counterexample: `on_inventory_update` itself installs the loaded
inventory as the comparison baseline (`_last_snapshot`,
`_baseline_set = True`), so the next snapshot DOES contribute: after an
update loading an empty inventory, a snapshot holding 5 of item 1 in a
fighting view raises `currency_total` (0 → 5 at price 1), contradicting
the claim that handling it leaves every counter unchanged. -/
theorem stats_next_snapshot_counterexample :
    (processSnapshot 3600 priceOne (onInventoryUpdate statsS0 invEmpty) invOne).currency_total
      ≠ (onInventoryUpdate statsS0 invEmpty).currency_total := by
  have h1 : compareWith invOne invEmpty = [(1, 5)] := by decide
  have hv : viewIsFighting "GameUI_FightCtrl" = true := by decide
  simp [processSnapshot, onInventoryUpdate, statsS0, h1, hv, priceOne]

/-- C5 amended.  After `INVENTORY_UPDATE`, the loaded inventory itself is
the comparison baseline; the next `INVENTORY_SNAPSHOT` leaves every rate
and total counter (`currency_total`, `currency_per_hour`,
`currency_per_map`, `_items_total`, `items_per_hour`) unchanged exactly
when its per-item totals equal those of the loaded inventory —
otherwise it contributes the post-load diff. -/
theorem stats_baseline_after_update (s : StatsState) (L S : Inventory)
    (now : ℚ) (price : Int → ℚ)
    (h : ∀ id, totalItemQty S id = totalItemQty L id) :
    (processSnapshot now price (onInventoryUpdate s L) S).currency_total = s.currency_total
    ∧ (processSnapshot now price (onInventoryUpdate s L) S).currency_per_hour = s.currency_per_hour
    ∧ (processSnapshot now price (onInventoryUpdate s L) S).currency_per_map = s.currency_per_map
    ∧ (processSnapshot now price (onInventoryUpdate s L) S).items_total = s.items_total
    ∧ (processSnapshot now price (onInventoryUpdate s L) S).items_per_hour = s.items_per_hour := by
  have hnil : compareWith S L = [] := compareWith_eq_nil_of_totals_eq S L h
  by_cases hv : viewIsFighting s.current_view
  · simp [processSnapshot, onInventoryUpdate, hv, hnil]
  · simp [processSnapshot, onInventoryUpdate, hv]

/-- C5 witness: a snapshot with the same per-item totals as the loaded
inventory leaves all five counters unchanged. -/
theorem stats_baseline_after_update_witness :
    (processSnapshot 3600 priceOne (onInventoryUpdate statsS0 invOne) invOne).currency_total
        = statsS0.currency_total
    ∧ (processSnapshot 3600 priceOne (onInventoryUpdate statsS0 invOne) invOne).currency_per_hour
        = statsS0.currency_per_hour
    ∧ (processSnapshot 3600 priceOne (onInventoryUpdate statsS0 invOne) invOne).currency_per_map
        = statsS0.currency_per_map
    ∧ (processSnapshot 3600 priceOne (onInventoryUpdate statsS0 invOne) invOne).items_total
        = statsS0.items_total
    ∧ (processSnapshot 3600 priceOne (onInventoryUpdate statsS0 invOne) invOne).items_per_hour
        = statsS0.items_per_hour :=
  stats_baseline_after_update statsS0 invOne invOne 3600 priceOne (fun _ => rfl)

/-! ## C6 — market transaction batching and flushes -/

/-- C6 counterexample: a pending batch with negative net delta (the stack
of 5 of item 42 deleted while the market is open) is flushed on market
close with `quantity = -5` — the raw signed total — not the absolute
value 5 the claim requires. -/
theorem market_close_signed_counterexample :
    (handleClose (onItemChange marketS0 evDelete42).1).2 = some ⟨42, -5, "lost"⟩
    ∧ (-5 : Int) ≠ |(-5 : Int)| := by
  decide

/-- C6 amended.  While the market is open: consecutive item changes on
the same `item_id` with non-zero cross-slot delta accumulate into the
pending batch; a change on a different `item_id` flushes the non-zero
batch as one transaction with quantity `|net|` and action by sign; and
closing the market flushes the non-zero batch as one transaction whose
quantity is the raw **signed** net delta (negative when net is a loss),
with action by sign. -/
theorem market_batch_flush (s : MarketState) (ev le : ItemChangeEv) (inv : Inventory) :
    (s.market_open = true → s.inventory = some inv → s.last_event = some le →
      le.item_id = ev.item_id →
      (changeItem inv ev.page ev.slot ev.item_id ev.amount ev.name ev.category).2 ≠ 0 →
      onItemChange s ev =
        ({ s with
            inventory :=
              some (changeItem inv ev.page ev.slot ev.item_id ev.amount ev.name ev.category).1
            total_quantity :=
              s.total_quantity
                + (changeItem inv ev.page ev.slot ev.item_id ev.amount ev.name ev.category).2
            last_event := some ev }, []))
    ∧ (s.market_open = true → s.inventory = some inv → s.last_event = some le →
      le.item_id ≠ ev.item_id → s.total_quantity ≠ 0 →
      (changeItem inv ev.page ev.slot ev.item_id ev.amount ev.name ev.category).2 ≠ 0 →
      (onItemChange s ev).2 =
        [⟨le.item_id, |s.total_quantity|,
          if s.total_quantity > 0 then "gained" else "lost"⟩])
    ∧ (s.last_event = some le → s.total_quantity ≠ 0 →
      (handleClose s).2 =
        some ⟨le.item_id, s.total_quantity,
          if s.total_quantity > 0 then "gained" else "lost"⟩) := by
  refine ⟨?_, ?_, ?_⟩
  · intro hopen hinv hlast heq hd
    simp [onItemChange, hopen, hinv, hlast, heq, hd]
  · intro hopen hinv hlast hne hq hd
    simp [onItemChange, hopen, hinv, hlast, hne, hq, hd]
  · intro hlast hq
    simp [handleClose, hlast, hq]

/-- C6 witness: accumulation (delta +4 onto a batch of 3 for item 42),
different-item flush (batch of 3 for item 99 flushed by an item-42
change), and close flush of the same positive batch. -/
theorem market_batch_flush_witness :
    (onItemChange marketS42 evSet42 =
      ({ market_open := true
         inventory := some [((1, 1), ⟨42, 9, none, none⟩)]
         total_quantity := 7
         last_event := some evSet42 }, []))
    ∧ (onItemChange marketS99 evSet42).2 = [⟨99, 3, "gained"⟩]
    ∧ (handleClose marketS99).2 = some ⟨99, 3, "gained"⟩ := by
  exact ⟨(market_batch_flush marketS42 evSet42 ⟨42, 1, 1, 5, none, none⟩ invMarket).1
      rfl rfl rfl rfl (by decide),
    (market_batch_flush marketS99 evSet42 evLast99 invMarket).2.1
      rfl rfl rfl (by decide) (by decide) (by decide),
    (market_batch_flush marketS99 evSet42 evLast99 invMarket).2.2
      rfl (by decide)⟩

/-! ## C8 — at most one active session row per player -/

/-- In a list with at most one element satisfying `p`, any member
satisfying `p` is what `find?` returns. -/
theorem find?_eq_of_countP_le_one {α : Type} (p : α → Bool) (l : List α)
    (h : l.countP p ≤ 1) (a : α) (ha : a ∈ l) (hpa : p a = true) :
    l.find? p = some a := by
  induction l with
  | nil => cases ha
  | cons x xs ih =>
    by_cases hx : p x = true
    · have hxs : xs.countP p = 0 := by
        rw [List.countP_cons, if_pos hx] at h
        omega
      rcases List.mem_cons.mp ha with rfl | hmem
      · simp [List.find?, hx]
      · exfalso
        have : 0 < xs.countP p := List.countP_pos_iff.mpr ⟨a, hmem, hpa⟩
        omega
    · have hax : a ≠ x := fun he => hx (he ▸ hpa)
      have hmem : a ∈ xs := by
        rcases List.mem_cons.mp ha with rfl | hmem
        · exact absurd rfl hax
        · exact hmem
      have hcount : xs.countP p ≤ 1 := by
        rw [List.countP_cons, if_neg hx] at h
        omega
      rw [List.find?_cons_of_neg _ (by simpa using hx)]
      exact ih hcount hmem

/-- After `close_session`, no row is active (assuming every active row
was the tracked current one). -/
theorem closeSession_all_inactive (s : SessState)
    (h2 : ∀ r ∈ s.db.rows, r.is_active = true → s.current = some r.id) :
    ∀ r ∈ (closeSession s).db.rows, r.is_active = false := by
  intro r hr
  cases hc : s.current with
  | none =>
    rw [closeSession, hc] at hr
    cases hb : r.is_active with
    | false => rfl
    | true =>
      have := h2 r hr hb
      rw [hc] at this
      cases this
  | some i =>
    rw [closeSession, hc] at hr
    simp only at hr
    rcases List.mem_map.mp hr with ⟨r0, hr0, rfl⟩
    by_cases hid : r0.id = i
    · simp [hid]
    · simp only [if_neg hid]
      cases hb : r0.is_active with
      | false => rfl
      | true =>
        have := h2 r0 hr0 hb
        rw [hc] at this
        exact absurd (Option.some.inj this) (fun he => hid he.symm)

/-- `close_session` clears the tracked current session. -/
theorem closeSession_current (s : SessState) : (closeSession s).current = none := by
  cases hc : s.current with
  | none => rw [closeSession, hc]; exact hc
  | some i => rw [closeSession, hc]

/-- `start_session` preserves the two-part activity invariant. -/
theorem startSession_inv (s : SessState) (p : Option String)
    (h1 : s.db.rows.countP (fun r => r.is_active) ≤ 1)
    (h2 : ∀ r ∈ s.db.rows, r.is_active = true → s.current = some r.id) :
    (startSession s p).db.rows.countP (fun r => r.is_active) ≤ 1
    ∧ ∀ r ∈ (startSession s p).db.rows, r.is_active = true →
        (startSession s p).current = some r.id := by
  by_cases hf : playerFalsy p
  · rw [startSession, if_pos hf]
    exact ⟨h1, h2⟩
  · rw [startSession, if_neg hf]
    have hzero : (closeSession s).db.rows.countP (fun r => r.is_active) = 0 :=
      List.countP_eq_zero.mpr (fun r hr => by
        simp [closeSession_all_inactive s h2 r hr])
    constructor
    · rw [List.countP_append, hzero]
      simp
    · intro r hr hact
      rcases List.mem_append.mp hr with hmem | hmem
      · exact absurd hact (by simp [closeSession_all_inactive s h2 r hmem])
      · rcases List.mem_singleton.mp hmem with rfl
        rfl

/-- `close_session` preserves the invariant. -/
theorem closeSession_inv (s : SessState)
    (_h1 : s.db.rows.countP (fun r => r.is_active) ≤ 1)
    (h2 : ∀ r ∈ s.db.rows, r.is_active = true → s.current = some r.id) :
    (closeSession s).db.rows.countP (fun r => r.is_active) ≤ 1
    ∧ ∀ r ∈ (closeSession s).db.rows, r.is_active = true →
        (closeSession s).current = some r.id := by
  constructor
  · have : (closeSession s).db.rows.countP (fun r => r.is_active) = 0 :=
      List.countP_eq_zero.mpr (fun r hr => by
        simp [closeSession_all_inactive s h2 r hr])
    omega
  · intro r hr hact
    exact absurd hact (by simp [closeSession_all_inactive s h2 r hr])

/-- Under the invariant, the player-join restore path never changes the
state: the stored active session is already the loaded one. -/
theorem playerJoinRestore_eq (s : SessState) (p : String)
    (h2 : ∀ r ∈ s.db.rows, r.is_active = true → s.current = some r.id) :
    playerJoinRestore s p = s := by
  rw [playerJoinRestore]
  cases hf : s.db.rows.find? (fun r => r.is_active && r.player == p) with
  | none => rfl
  | some r =>
    have hmem := List.mem_of_find?_eq_some hf
    have hpred := List.find?_some hf
    have hact : r.is_active = true := (Bool.and_eq_true _ _ |>.mp hpred).1
    have hcur := h2 r hmem hact
    simp [hcur]

/-- Restart + `post_startup` restore preserves the invariant. -/
theorem restartRestore_inv (s : SessState)
    (h1 : s.db.rows.countP (fun r => r.is_active) ≤ 1)
    (_h2 : ∀ r ∈ s.db.rows, r.is_active = true → s.current = some r.id) :
    (restartRestore s).db.rows.countP (fun r => r.is_active) ≤ 1
    ∧ ∀ r ∈ (restartRestore s).db.rows, r.is_active = true →
        (restartRestore s).current = some r.id := by
  refine ⟨h1, ?_⟩
  intro r hr hact
  have hfind : s.db.rows.find? (fun r => r.is_active) = some r :=
    find?_eq_of_countP_le_one _ _ h1 r hr hact
  simp [restartRestore, hfind]

/-- Every session operation preserves the invariant. -/
theorem applySessionOp_inv (s : SessState) (op : SessionOp)
    (h1 : s.db.rows.countP (fun r => r.is_active) ≤ 1)
    (h2 : ∀ r ∈ s.db.rows, r.is_active = true → s.current = some r.id) :
    (applySessionOp s op).db.rows.countP (fun r => r.is_active) ≤ 1
    ∧ ∀ r ∈ (applySessionOp s op).db.rows, r.is_active = true →
        (applySessionOp s op).current = some r.id := by
  cases op with
  | start p => exact startSession_inv s p h1 h2
  | close => exact closeSession_inv s h1 h2
  | next p =>
    obtain ⟨h1', h2'⟩ := closeSession_inv s h1 h2
    exact startSession_inv (closeSession s) p h1' h2'
  | playerChanged p =>
    obtain ⟨h1', h2'⟩ := closeSession_inv s h1 h2
    exact startSession_inv (closeSession s) (some p) h1' h2'
  | playerJoin p =>
    rw [applySessionOp, playerJoinRestore_eq s p h2]
    exact ⟨h1, h2⟩
  | restart => exact restartRestore_inv s h1 h2

/-- C8.  In every state reachable through the session operations (start,
close, next, player change, player-join restore, restart + post-startup
restore) from an empty table, at most one `Session` row per player is
`is_active=true`. -/
theorem session_at_most_one_active_per_player (ops : List SessionOp) (p : String) :
    ((runSessionOps ops).db.rows.countP
      (fun r => r.is_active && r.player == p)) ≤ 1 := by
  have key : ∀ (l : List SessionOp) (s : SessState),
      s.db.rows.countP (fun r => r.is_active) ≤ 1 →
      (∀ r ∈ s.db.rows, r.is_active = true → s.current = some r.id) →
      (l.foldl applySessionOp s).db.rows.countP (fun r => r.is_active) ≤ 1 := by
    intro l
    induction l with
    | nil => intro s h1 _; exact h1
    | cons op rest ih =>
      intro s h1 h2
      obtain ⟨h1', h2'⟩ := applySessionOp_inv s op h1 h2
      exact ih (applySessionOp s op) h1' h2'
  have hglobal := key ops ⟨⟨[], 0⟩, none⟩ (by simp) (by simp)
  calc ((runSessionOps ops).db.rows.countP (fun r => r.is_active && r.player == p))
      ≤ (runSessionOps ops).db.rows.countP (fun r => r.is_active) :=
        List.countP_mono_left (fun r _ hq => (Bool.and_eq_true _ _ |>.mp hq).1)
    _ ≤ 1 := hglobal

/-! ## C2 — enter-level FSM: emission and safety nets -/

/-- Unfolding one stream step. -/
theorem feedLines_cons (p : ELFsm) (now : Int) (ln : LogLine)
    (rest : List (Int × LogLine)) :
    feedLines p ((now, ln) :: rest) =
      ((feedLines (feedLine now p ln).1 rest).1,
        (feedLine now p ln).2.toList ++ (feedLines (feedLine now p ln).1 rest).2) :=
  rfl

/-- The timeout guard either resets the parser or leaves it alone. -/
theorem timeoutGuard_cases (now : Int) (p : ELFsm) :
    timeoutGuard now p = initFsm ∨ timeoutGuard now p = p := by
  unfold timeoutGuard
  cases p.state_entered_at with
  | none => right; rfl
  | some t =>
    dsimp only
    by_cases h : p.state ≠ ParseState.IDLE ∧ now - t > stateTimeoutMs
    · left; rw [if_pos h]
    · right; rw [if_neg h]

/-- When no timeout fires, the guard is the identity. -/
theorem timeoutGuard_eq_of_le (now t : Int) (p : ELFsm)
    (hsea : p.state_entered_at = some t) (ht : now - t ≤ stateTimeoutMs) :
    timeoutGuard now p = p := by
  unfold timeoutGuard
  rw [hsea]
  dsimp only
  rw [if_neg]
  intro hc
  omega

/-- An IDLE parser is not touched by the timeout guard. -/
theorem timeoutGuard_eq_of_idle (now : Int) (p : ELFsm)
    (hs : p.state = ParseState.IDLE) : timeoutGuard now p = p := by
  unfold timeoutGuard
  cases p.state_entered_at with
  | none => rfl
  | some t =>
    dsimp only
    rw [if_neg]
    intro hc
    exact hc.1 hs

/-- The guarded machine step ignores non-matching lines in IDLE. -/
theorem counterGuardStep_idle (now : Int) (q : ELFsm) (ln : LogLine)
    (hs : q.state = ParseState.IDLE) (he : ln.matchEnter = none) :
    counterGuardStep now q ln = (q, none) := by
  unfold counterGuardStep
  rw [if_neg (by simp [hs])]
  unfold stepMachine
  rw [hs, he]

/-- A line matching none of the patterns leaves an IDLE parser untouched. -/
theorem feedLine_idle (now : Int) (p : ELFsm) (ln : LogLine)
    (hs : p.state = ParseState.IDLE) (he : ln.matchEnter = none) :
    feedLine now p ln = (p, none) := by
  unfold feedLine
  rw [timeoutGuard_eq_of_idle now p hs, counterGuardStep_idle now p ln hs he]

/-- An IDLE parser stays IDLE over any stream without `ENTER_LEVEL`
matches, emitting nothing. -/
theorem feedLines_idle (p : ELFsm) (ls : List (Int × LogLine))
    (hs : p.state = ParseState.IDLE)
    (he : ∀ e ∈ ls, e.2.matchEnter = none) :
    feedLines p ls = (p, []) := by
  induction ls with
  | nil => rfl
  | cons x xs ih =>
    obtain ⟨now, ln⟩ := x
    rw [feedLines_cons, feedLine_idle now p ln hs (he _ (List.mem_cons_self _ _)),
      ih (fun e hmem => he e (List.mem_cons_of_mem _ hmem))]
    rfl

/-- Case analysis of the guarded machine step on a non-`ENTER_LEVEL`
line: either the result is IDLE, or the counter advanced to at most 5. -/
theorem counterGuardStep_nonenter (now : Int) (q : ELFsm) (ln : LogLine)
    (he : ln.matchEnter = none) :
    (counterGuardStep now q ln).1.state = ParseState.IDLE ∨
    ((counterGuardStep now q ln).1.non_idle_counter = q.non_idle_counter + 1 ∧
      q.non_idle_counter + 1 ≤ 5) := by
  by_cases hs : q.state = ParseState.IDLE
  · left
    rw [counterGuardStep_idle now q ln hs he]
    exact hs
  · unfold counterGuardStep
    rw [if_pos (by simp [hs])]
    by_cases hc : q.non_idle_counter + 1 ≥ 6
    · rw [if_pos (by simpa using hc)]
      left
      rfl
    · rw [if_neg (by simpa using hc)]
      cases hps : q.state with
      | IDLE => exact absurd hps hs
      | GOT_ENTER =>
        cases hinfo : ln.matchInfo with
        | none =>
          right
          exact ⟨by simp [stepMachine, hps, hinfo], by omega⟩
        | some d =>
          right
          obtain ⟨a, b, c, d⟩ := d
          exact ⟨by simp [stepMachine, hps, hinfo], by omega⟩
      | GOT_LEVEL_INFO =>
        cases hpath : ln.matchPath with
        | none =>
          right
          exact ⟨by simp [stepMachine, hps, hpath], by omega⟩
        | some t2 =>
          left
          simp [stepMachine, hps, hpath, initFsm]

/-- One full `feed_line` step on a line that does not match
`ENTER_LEVEL`: either the parser is (back) in IDLE, or the non-IDLE
counter advanced by one and stayed at most 5. -/
theorem feedLine_nonenter_step (now : Int) (p : ELFsm) (ln : LogLine)
    (he : ln.matchEnter = none) :
    (feedLine now p ln).1.state = ParseState.IDLE ∨
    ((feedLine now p ln).1.non_idle_counter = p.non_idle_counter + 1 ∧
      p.non_idle_counter + 1 ≤ 5) := by
  unfold feedLine
  rcases timeoutGuard_cases now p with hg | hg
  · rw [hg, counterGuardStep_idle now initFsm ln rfl he]
    left
    rfl
  · rw [hg]
    exact counterGuardStep_nonenter now p ln he

/-- Feeding any stream without `ENTER_LEVEL` matches that is long enough
to overflow the non-IDLE counter forces the parser back to IDLE. -/
theorem feedLines_nonenter_reset (ls : List (Int × LogLine)) : ∀ (p : ELFsm),
    (∀ e ∈ ls, e.2.matchEnter = none) →
    (p.state = ParseState.IDLE ∨
      (p.non_idle_counter ≤ 5 ∧ 6 ≤ p.non_idle_counter + ls.length)) →
    (feedLines p ls).1.state = ParseState.IDLE := by
  induction ls with
  | nil =>
    intro p _ h
    rcases h with hs | ⟨hc, h6⟩
    · exact hs
    · simp at h6
      omega
  | cons x xs ih =>
    intro p hall h
    obtain ⟨now, ln⟩ := x
    rcases h with hs | ⟨hc, h6⟩
    · rw [feedLines_idle p ((now, ln) :: xs) hs hall]
      exact hs
    · rw [feedLines_cons]
      rcases feedLine_nonenter_step now p ln (hall _ (List.mem_cons_self _ _))
        with hidle | ⟨hcnt, hle⟩
      · rw [feedLines_idle _ xs hidle
          (fun e hmem => hall e (List.mem_cons_of_mem _ hmem))]
        exact hidle
      · exact ih (feedLine now p ln).1
          (fun e hmem => hall e (List.mem_cons_of_mem _ hmem))
          (Or.inr ⟨by omega, by simp at h6 ⊢; omega⟩)

/-- Splitting a fed stream at an append. -/
theorem feedLines_append (p : ELFsm) (l1 l2 : List (Int × LogLine)) :
    feedLines p (l1 ++ l2) =
      ((feedLines (feedLines p l1).1 l2).1,
        (feedLines p l1).2 ++ (feedLines (feedLines p l1).1 l2).2) := by
  induction l1 generalizing p with
  | nil => rfl
  | cons x xs ih =>
    obtain ⟨now, ln⟩ := x
    rw [List.cons_append, feedLines_cons, feedLines_cons, ih]
    dsimp only
    rw [List.append_assoc]

/-- While non-IDLE and before any timeout, junk lines only advance the
counter (as long as it stays below the force-reset bound). -/
theorem feedLines_junk_nonidle (k : Nat) : ∀ (p : ELFsm) (now t : Int),
    p.state_entered_at = some t → now - t ≤ stateTimeoutMs →
    p.state ≠ ParseState.IDLE →
    p.non_idle_counter + k ≤ 5 →
    feedLines p (List.replicate k (now, junkLine)) =
      ({ p with non_idle_counter := p.non_idle_counter + k }, []) := by
  induction k with
  | zero => intro p now t _ _ _ _; rfl
  | succ k ih =>
    intro p now t hsea htime hs hcount
    rw [List.replicate_succ, feedLines_cons]
    have hstep : feedLine now p junkLine =
        ({ p with non_idle_counter := p.non_idle_counter + 1 }, none) := by
      unfold feedLine
      rw [timeoutGuard_eq_of_le now t p hsea htime]
      unfold counterGuardStep
      rw [if_pos hs]
      dsimp only
      rw [if_neg (by omega : ¬ p.non_idle_counter + 1 ≥ 6)]
      cases hps : p.state with
      | IDLE => exact absurd hps hs
      | GOT_ENTER => simp [stepMachine, hps, junkLine]
      | GOT_LEVEL_INFO => simp [stepMachine, hps, junkLine]
    rw [hstep]
    dsimp only
    rw [ih { p with non_idle_counter := p.non_idle_counter + 1 } now t hsea htime
      hs (by dsimp only; omega)]
    dsimp only
    have harith : p.non_idle_counter + 1 + k = p.non_idle_counter + (k + 1) := by omega
    rw [harith]
    rfl

/-- From IDLE, a complete `ENTER_LEVEL` / `LEVEL_INFO` / `LEVEL_PATH`
sequence interleaved with at most 3 junk lines in total (all within the
timeout window) emits exactly one event carrying the captured fields,
and leaves the parser reset in IDLE. -/
theorem feedLines_emit_sequence (now ts tsi tsp uid ltype lid : Int)
    (k1 k2 : Nat) (h : k1 + k2 ≤ 3) :
    feedLines initFsm
      ((now, enterLine ts) ::
        (List.replicate k1 (now, junkLine) ++
          ((now, infoLine tsi uid ltype lid) ::
            (List.replicate k2 (now, junkLine) ++ [(now, pathLine tsp)])))) =
      (initFsm, [⟨some ts, some lid, some uid, some ltype⟩]) := by
  have h1 : feedLine now initFsm (enterLine ts) =
      (⟨ParseState.GOT_ENTER, some ts, none, none, none, 0, some now⟩, none) := rfl
  have h2 : feedLines
      (⟨ParseState.GOT_ENTER, some ts, none, none, none, 0, some now⟩ : ELFsm)
      (List.replicate k1 (now, junkLine)) =
      (⟨ParseState.GOT_ENTER, some ts, none, none, none, k1, some now⟩, []) := by
    have := feedLines_junk_nonidle k1
      ⟨ParseState.GOT_ENTER, some ts, none, none, none, 0, some now⟩ now now
      rfl (by simp [stateTimeoutMs]) (by simp) (by dsimp only; omega)
    simpa using this
  have h3 : feedLine now
      (⟨ParseState.GOT_ENTER, some ts, none, none, none, k1, some now⟩ : ELFsm)
      (infoLine tsi uid ltype lid) =
      (⟨ParseState.GOT_LEVEL_INFO, some ts, some uid, some ltype, some lid,
        k1 + 1, some now⟩, none) := by
    unfold feedLine
    rw [timeoutGuard_eq_of_le now now _ rfl (by simp [stateTimeoutMs])]
    unfold counterGuardStep
    rw [if_pos (by simp)]
    dsimp only
    rw [if_neg (by omega : ¬ k1 + 1 ≥ 6)]
    simp [stepMachine, infoLine]
  have h4 : feedLines
      (⟨ParseState.GOT_LEVEL_INFO, some ts, some uid, some ltype, some lid,
        k1 + 1, some now⟩ : ELFsm)
      (List.replicate k2 (now, junkLine)) =
      (⟨ParseState.GOT_LEVEL_INFO, some ts, some uid, some ltype, some lid,
        k1 + 1 + k2, some now⟩, []) := by
    have := feedLines_junk_nonidle k2
      ⟨ParseState.GOT_LEVEL_INFO, some ts, some uid, some ltype, some lid,
        k1 + 1, some now⟩ now now rfl (by simp [stateTimeoutMs]) (by simp)
      (by dsimp only; omega)
    simpa using this
  have h5 : feedLine now
      (⟨ParseState.GOT_LEVEL_INFO, some ts, some uid, some ltype, some lid,
        k1 + 1 + k2, some now⟩ : ELFsm) (pathLine tsp) =
      (initFsm, some ⟨some ts, some lid, some uid, some ltype⟩) := by
    unfold feedLine
    rw [timeoutGuard_eq_of_le now now _ rfl (by simp [stateTimeoutMs])]
    unfold counterGuardStep
    rw [if_pos (by simp)]
    dsimp only
    rw [if_neg (by omega : ¬ k1 + 1 + k2 + 1 ≥ 6)]
    simp [stepMachine, pathLine]
  rw [feedLines_cons, h1]
  dsimp only
  rw [feedLines_append, h2]
  dsimp only
  rw [feedLines_cons, h3]
  dsimp only
  rw [feedLines_append, h4]
  dsimp only
  rw [feedLines_cons, h5]
  rfl

/-- C2 counterexample: a complete 3-line sequence interleaved with only
4 consecutive non-matching lines (fewer than 6) emits NO event — the
non-IDLE counter counts every line after the ENTER match (including the
matching LEVEL_INFO line), so it reaches 6 on the LEVEL_PATH line and
force-resets instead of emitting. -/
theorem enter_level_interleaved_no_emit_counterexample :
    feedLines initFsm
      ((0, enterLine 1) ::
        (List.replicate 4 (0, junkLine) ++
          [(0, infoLine 2 3 4 5), (0, pathLine 6)])) =
      (initFsm, []) := by
  decide

/-- C2 amended.  Exactly one `EnterLevelEvent` is emitted per complete
ENTER_LEVEL / LEVEL_INFO / LEVEL_PATH sequence provided at most 3
non-matching lines are interleaved in total (the force-reset counter
counts every line fed while non-IDLE, including the matching LEVEL_INFO
line, and resets at 6); and the parser never wedges: from any state,
after any 6 lines without an ENTER_LEVEL match it is back in IDLE. -/
theorem enter_level_emit_and_never_wedged :
    (∀ (now ts tsi tsp uid ltype lid : Int) (k1 k2 : Nat), k1 + k2 ≤ 3 →
      feedLines initFsm
        ((now, enterLine ts) ::
          (List.replicate k1 (now, junkLine) ++
            ((now, infoLine tsi uid ltype lid) ::
              (List.replicate k2 (now, junkLine) ++ [(now, pathLine tsp)])))) =
        (initFsm, [⟨some ts, some lid, some uid, some ltype⟩]))
    ∧ (∀ (p : ELFsm) (ls : List (Int × LogLine)), ls.length = 6 →
        (∀ e ∈ ls, e.2.matchEnter = none) →
        (feedLines p ls).1.state = ParseState.IDLE) := by
  constructor
  · exact feedLines_emit_sequence
  · intro p ls hlen hall
    cases ls with
    | nil => simp at hlen
    | cons x xs =>
      obtain ⟨now, ln⟩ := x
      rw [feedLines_cons]
      have hxs : xs.length = 5 := by simpa using hlen
      rcases feedLine_nonenter_step now p ln (hall _ (List.mem_cons_self _ _))
        with hidle | ⟨hcnt, hle⟩
      · rw [feedLines_idle _ xs hidle
          (fun e hmem => hall e (List.mem_cons_of_mem _ hmem))]
        exact hidle
      · exact feedLines_nonenter_reset xs (feedLine now p ln).1
          (fun e hmem => hall e (List.mem_cons_of_mem _ hmem))
          (Or.inr ⟨by omega, by omega⟩)

/-- C2 witness: a sequence with one junk line on each side of LEVEL_INFO
emits its single event, and 6 junk lines from the initial state leave
the parser in IDLE. -/
theorem enter_level_emit_and_never_wedged_witness :
    (feedLines initFsm
      ((0, enterLine 5) ::
        (List.replicate 1 (0, junkLine) ++
          ((0, infoLine 1 2 3 4) ::
            (List.replicate 1 (0, junkLine) ++ [(0, pathLine 9)])))) =
      (initFsm, [⟨some 5, some 4, some 2, some 3⟩]))
    ∧ (feedLines initFsm (List.replicate 6 (0, junkLine))).1.state = ParseState.IDLE :=
  ⟨enter_level_emit_and_never_wedged.1 0 5 1 9 2 3 4 1 1 (by decide),
   enter_level_emit_and_never_wedged.2 initFsm (List.replicate 6 (0, junkLine))
     (by decide) (by decide)⟩

/-! ## C9 — price book local refresh -/

/-- Cache lookup after inserting the same key. -/
theorem cacheGet_insert_self (c : List (Int × ℚ)) (id : Int) (v : ℚ) :
    cacheGet (cacheInsert c id v) id = some v := by
  simp [cacheGet, cacheInsert]

/-- Cache lookup after inserting a different key. -/
theorem cacheGet_insert_ne (c : List (Int × ℚ)) (id id' : Int) (v : ℚ)
    (h : id ≠ id') : cacheGet (cacheInsert c id' v) id = cacheGet c id := by
  unfold cacheGet cacheInsert
  rw [List.find?_cons_of_neg _ (by simpa using fun he => h he.symm)]
  congr 1
  induction c with
  | nil => rfl
  | cons x xs ih =>
    by_cases hx : x.1 = id'
    · rw [List.filter_cons_of_neg (by simpa using hx)]
      rw [List.find?_cons_of_neg _ (by simp [hx]; exact fun he => h he.symm)]
      exact ih
    · rw [List.filter_cons_of_pos (by simpa using hx)]
      by_cases hpx : x.1 = id
      · rw [List.find?_cons_of_pos _ (by simpa using hpx),
          List.find?_cons_of_pos _ (by simpa using hpx)]
      · rw [List.find?_cons_of_neg _ (by simpa using hpx),
          List.find?_cons_of_neg _ (by simpa using hpx)]
        exact ih

/-- The DB hydration fold does not disturb keys outside the item list. -/
theorem hydrate_preserve (items : List ItemRow) : ∀ (c : List (Int × ℚ)) (id : Int),
    id ∉ items.map (fun r => r.item_id) →
    cacheGet (items.foldl (fun c r =>
      if r.price > 0 then cacheInsert c r.item_id r.price else c) c) id = cacheGet c id := by
  induction items with
  | nil => intro c id _; rfl
  | cons x xs ih =>
    intro c id hid
    rw [List.foldl_cons]
    have hne : id ≠ x.item_id := fun he => hid (by simp [he])
    have hxs : id ∉ xs.map (fun r => r.item_id) := fun hm => hid (by simp [hm])
    rw [ih _ id hxs]
    by_cases hp : x.price > 0
    · rw [if_pos hp, cacheGet_insert_ne _ _ _ _ hne]
    · rw [if_neg hp]

/-- After hydration from the `Item` table (distinct `item_id`s), every
positive-price row is in the cache at its stored price. -/
theorem hydrate_cacheGet (items : List ItemRow) : ∀ (c : List (Int × ℚ)),
    (items.map (fun r => r.item_id)).Nodup →
    ∀ r ∈ items, r.price > 0 →
    cacheGet (items.foldl (fun c r =>
      if r.price > 0 then cacheInsert c r.item_id r.price else c) c) r.item_id
      = some r.price := by
  induction items with
  | nil => intro c _ r hr; cases hr
  | cons x xs ih =>
    intro c hnd r hr hp
    rw [List.map_cons, List.nodup_cons] at hnd
    rw [List.foldl_cons]
    rcases List.mem_cons.mp hr with rfl | hmem
    · rw [if_pos hp]
      rw [hydrate_preserve xs _ r.item_id hnd.1]
      exact cacheGet_insert_self c r.item_id r.price
    · exact ih _ hnd.2 r hmem hp

/-- The upsert always leaves a row carrying the requested id and price. -/
theorem upsertItem_mem_self (lookup : Int → Option String × Option String)
    (items : List ItemRow) (id : Int) (pr : ℚ) :
    ∃ row ∈ upsertItem lookup items id pr, row.item_id = id ∧ row.price = pr := by
  unfold upsertItem
  cases hf : items.find? (fun r => r.item_id == id) with
  | none =>
    exact ⟨⟨id, (lookup id).1, (lookup id).2, pr⟩, by simp, rfl, rfl⟩
  | some r0 =>
    have hmem := List.mem_of_find?_eq_some hf
    have hid : r0.item_id = id := by simpa using List.find?_some hf
    refine ⟨_, List.mem_map_of_mem _ hmem, ?_⟩
    rw [if_pos (by simpa using hid)]
    exact ⟨hid, rfl⟩

/-- Upserting a different id keeps an existing row untouched. -/
theorem upsertItem_preserve (lookup : Int → Option String × Option String)
    (items : List ItemRow) (id' : Int) (pr : ℚ) (row : ItemRow)
    (hrow : row ∈ items) (h : row.item_id ≠ id') :
    row ∈ upsertItem lookup items id' pr := by
  unfold upsertItem
  cases hf : items.find? (fun r => r.item_id == id') with
  | none => exact List.mem_append_left _ hrow
  | some r0 =>
    refine List.mem_map.mpr ⟨row, hrow, ?_⟩
    dsimp only
    rw [if_neg (by simpa using h)]

/-- Folding upserts over entries with other keys keeps a row untouched. -/
theorem upsert_fold_preserve (lookup : Int → Option String × Option String)
    (l : List (Int × ℚ)) : ∀ (items : List ItemRow) (row : ItemRow),
    row ∈ items → row.item_id ∉ l.map (fun e => e.1) →
    row ∈ l.foldl (fun it x => upsertItem lookup it x.1 x.2) items := by
  induction l with
  | nil => intro items row hrow _; exact hrow
  | cons x xs ih =>
    intro items row hrow hnot
    rw [List.foldl_cons]
    exact ih _ row
      (upsertItem_preserve lookup items x.1 x.2 row hrow
        (fun he => hnot (by simp [he])))
      (fun hm => hnot (by simp [hm]))

/-- After folding the file entries (distinct keys), every entry has a
row at its price. -/
theorem upsert_fold_mem (lookup : Int → Option String × Option String)
    (l : List (Int × ℚ)) : ∀ (items : List ItemRow),
    (l.map (fun e => e.1)).Nodup →
    ∀ e ∈ l, ∃ row ∈ l.foldl (fun it x => upsertItem lookup it x.1 x.2) items,
      row.item_id = e.1 ∧ row.price = e.2 := by
  induction l with
  | nil => intro items _ e he; cases he
  | cons x xs ih =>
    intro items hnd e he
    rw [List.map_cons, List.nodup_cons] at hnd
    rw [List.foldl_cons]
    rcases List.mem_cons.mp he with rfl | hmem
    · obtain ⟨row, hrow, hid, hpr⟩ := upsertItem_mem_self lookup items e.1 e.2
      exact ⟨row, upsert_fold_preserve lookup xs _ row hrow (hid ▸ hnd.1), hid, hpr⟩
    · exact ih _ hnd.2 e hmem

/-- The items component of `loadFromFile` is the plain upsert fold. -/
theorem loadFromFile_items (lookup : Int → Option String × Option String)
    (fileData : List (Int × ℚ)) : ∀ (s : PriceState),
    (loadFromFile lookup fileData s).items =
      fileData.foldl (fun it x => upsertItem lookup it x.1 x.2) s.items := by
  unfold loadFromFile
  suffices hgen : ∀ (st : PriceState),
      (fileData.foldl (fun st e =>
        { st with cache := cacheInsert st.cache e.1 e.2
                  items := upsertItem lookup st.items e.1 e.2 }) st).items =
        fileData.foldl (fun it x => upsertItem lookup it x.1 x.2) st.items by
    intro s
    exact hgen { s with cache := [] }
  induction fileData with
  | nil => intro st; rfl
  | cons x xs ih => intro st; rw [List.foldl_cons, List.foldl_cons, ih]

/-- `loadFromFile` does not touch the revision table. -/
theorem loadFromFile_revisions (lookup : Int → Option String × Option String)
    (fileData : List (Int × ℚ)) : ∀ (s : PriceState),
    (loadFromFile lookup fileData s).revisions = s.revisions := by
  unfold loadFromFile
  suffices hgen : ∀ (st : PriceState),
      (fileData.foldl (fun st e =>
        { st with cache := cacheInsert st.cache e.1 e.2
                  items := upsertItem lookup st.items e.1 e.2 }) st).revisions =
        st.revisions by
    intro s
    exact hgen { s with cache := [] }
  induction fileData with
  | nil => intro st; rfl
  | cons x xs ih => intro st; rw [List.foldl_cons, ih]

/-- C9.  On the local-file fallback of a price refresh: when the file's
mtime is not newer than the latest LOCAL revision, the cache is
hydrated from the stored `Item` table (positive-price rows at their
stored prices) and no revision row is written; otherwise the file is
parsed, `Item` rows are upserted (each file entry ends up stored at its
file price), and exactly one new LOCAL revision is appended. -/
theorem price_local_refresh_behavior (now fileMtime : Int)
    (lookup : Int → Option String × Option String)
    (fileData : List (Int × ℚ)) (s : PriceState) (t : Int) :
    (latestLocalRevision s.revisions = some t → fileMtime ≤ t →
      (refreshLocalFallback now lookup true fileMtime fileData s).2.revisions = s.revisions
      ∧ (refreshLocalFallback now lookup true fileMtime fileData s).2.items = s.items
      ∧ (refreshLocalFallback now lookup true fileMtime fileData s).2.loaded = true
      ∧ ((s.items.map (fun r => r.item_id)).Nodup →
          ∀ r ∈ s.items, r.price > 0 →
            cacheGet (refreshLocalFallback now lookup true fileMtime fileData s).2.cache
              r.item_id = some r.price))
    ∧ ((latestLocalRevision s.revisions = none ∨
        (latestLocalRevision s.revisions = some t ∧ t < fileMtime)) →
      (refreshLocalFallback now lookup true fileMtime fileData s).2.revisions =
        s.revisions ++ [⟨now, PriceSource.LOCAL,
          (refreshLocalFallback now lookup true fileMtime fileData s).2.cache.length⟩]
      ∧ ((fileData.map (fun e => e.1)).Nodup →
          ∀ e ∈ fileData,
            ∃ row ∈ (refreshLocalFallback now lookup true fileMtime fileData s).2.items,
              row.item_id = e.1 ∧ row.price = e.2)) := by
  constructor
  · intro hrev hmt
    have hload : loadLocalPrices lookup true fileMtime fileData s =
        (false, loadPricesFromDb s) := by
      unfold loadLocalPrices
      rw [hrev]
      simp [hmt]
    have hres : refreshLocalFallback now lookup true fileMtime fileData s =
        (false, loadPricesFromDb s) := by
      unfold refreshLocalFallback
      rw [hload]
      simp
    rw [hres]
    refine ⟨rfl, rfl, rfl, ?_⟩
    intro hnd r hr hp
    exact hydrate_cacheGet s.items s.cache hnd r hr hp
  · intro hrev
    have hload : loadLocalPrices lookup true fileMtime fileData s =
        (true, loadFromFile lookup fileData s) := by
      unfold loadLocalPrices
      rcases hrev with hnone | ⟨hsome, hlt⟩
      · rw [hnone]
        rfl
      · rw [hsome]
        simp
        omega
    have hres : refreshLocalFallback now lookup true fileMtime fileData s =
        (true, { loadFromFile lookup fileData s with
          revisions := (loadFromFile lookup fileData s).revisions ++
            [⟨now, PriceSource.LOCAL, (loadFromFile lookup fileData s).cache.length⟩] }) := by
      unfold refreshLocalFallback
      rw [hload]
      simp
    rw [hres]
    constructor
    · rw [loadFromFile_revisions]
    · intro hnd e he
      have := upsert_fold_mem lookup fileData s.items hnd e he
      rw [← loadFromFile_items lookup fileData s] at this
      exact this

/-- C9 witness: with a LOCAL revision at time 10 and a file mtime of 5,
the refresh writes no revision and hydrates the stored item (id 7,
price 2); with no LOCAL revision and file entry `(7, 3)`, exactly one
LOCAL revision is appended and item 7 is stored at price 3. -/
theorem price_local_refresh_behavior_witness :
    ((refreshLocalFallback 20 (fun _ => (none, none)) true 5 []
        { cache := [], loaded := false, items := [⟨7, none, none, 2⟩],
          revisions := [⟨10, PriceSource.LOCAL, 1⟩] }).2.revisions
        = [⟨10, PriceSource.LOCAL, 1⟩]
      ∧ cacheGet (refreshLocalFallback 20 (fun _ => (none, none)) true 5 []
          { cache := [], loaded := false, items := [⟨7, none, none, 2⟩],
            revisions := [⟨10, PriceSource.LOCAL, 1⟩] }).2.cache 7 = some 2)
    ∧ ((refreshLocalFallback 20 (fun _ => (none, none)) true 5 [(7, 3)]
        { cache := [], loaded := false, items := [],
          revisions := [] }).2.revisions
        = [⟨20, PriceSource.LOCAL,
            (refreshLocalFallback 20 (fun _ => (none, none)) true 5 [(7, 3)]
              { cache := [], loaded := false, items := [],
                revisions := [] }).2.cache.length⟩]
      ∧ ∃ row ∈ (refreshLocalFallback 20 (fun _ => (none, none)) true 5 [(7, 3)]
          { cache := [], loaded := false, items := [],
            revisions := [] }).2.items, row.item_id = 7 ∧ row.price = 3) := by
  have ha := (price_local_refresh_behavior 20 5 (fun _ => (none, none)) []
    { cache := [], loaded := false, items := [⟨7, none, none, 2⟩],
      revisions := [⟨10, PriceSource.LOCAL, 1⟩] } 10).1 (by decide) (by decide)
  have hb := (price_local_refresh_behavior 20 5 (fun _ => (none, none)) [(7, 3)]
    { cache := [], loaded := false, items := [],
      revisions := [] } 10).2 (Or.inl (by decide))
  exact ⟨⟨ha.1, ha.2.2.2 (by decide) ⟨7, none, none, 2⟩ (by simp) (by norm_num)⟩,
    ⟨hb.1, hb.2 (by decide) (7, 3) (by simp)⟩⟩

end Oracle
